import Mathlib

/-!
Verification of the kitcat/kitkat local version-control engine.

The Go sources under `internal/core/reset.go`, `internal/core/stash.go` and
`cmd/main.go` are shallowly embedded below.  A repository is a pure record
`RepoState`; every operation is a pure function from a `RepoState` to a new
`RepoState` paired with an `Except KErr` result, mirroring Go's
`(value, error)` convention.  Filesystem writes always succeed in the model;
the fallible parts (commit lookup, tree parsing, object reads) fail exactly
when the corresponding entry is absent from the state.

Helpers that live in packages not shipped with the core sources
(`internal/storage`, the workspace synchronizer, the rebase-state
persistence layer) are reconstructed from the specification; each such
definition carries a doc comment starting with "Modelled from the spec".
-/

/-- One commit record.  The Go struct also carries a wall-clock timestamp;
the model omits it (and omits it from the commit digest) so that commit
creation stays deterministic. -/
structure Commit where
  id : String
  parent : String
  treeHash : String
  message : String
  authorName : String
  authorEmail : String
  deriving DecidableEq

/-- Persisted interactive-rebase state, mirroring the spec's `RebaseState`
record: `{head_branch_name, onto_commit, original_head_commit, todo_steps,
current_step_index}`. -/
structure RebaseState where
  headName : String
  onto : String
  origHead : String
  todoSteps : List String
  currentStep : Nat
  deriving DecidableEq

/-- Error kinds surfaced by the engine (spec, section 7).  Go reports errors
as strings; the model separates the distinct messages into constructors. -/
inductive KErr where
  | notARepo
  | noCommits
  | unknownCommit (h : String)
  | corruptObject (h : String)
  | objectNotFound (h : String)
  | dirtyWorkTree
  | nothingToStash
  | noStashEntries
  | conflictDeleted (path : String)
  | conflictModified (path : String)
  | conflictModifiedDeleted (path : String)
  | pathspec (path : String)
  | unsafePath (path : String)
  | unknownResetMode (mode : String)
  | other (msg : String)
  deriving DecidableEq

/-- The whole on-disk repository, as one record.
`head` is the text content of `.kitcat/HEAD`; `headLog` records every write
to that file in order, so theorems can speak about tentative HEAD movements.
`branches` maps a branch name to the content of its ref file, `index` is the
staging index, `workspace` maps a path to the file content on disk,
`objects` is the blob store, `trees` maps a tree digest to its path-to-blob
mapping, `commits` is the append-only commit log, `stash` is the stash stack
(index 0 = newest) and `dirty` is the answer of the external
dirty-work-tree oracle (spec, section 6). -/
structure RepoState where
  inited : Bool
  head : String
  headLog : List String
  branches : List (String × String)
  index : List (String × String)
  workspace : List (String × String)
  objects : List (String × String)
  trees : List (String × List (String × String))
  commits : List Commit
  stash : List String
  config : List (String × String)
  dirty : Bool
  rebase : Option RebaseState
  deriving DecidableEq

/-! ### Association-list helpers (Go `map[string]T`) -/

/-- Lookup in an association list (model of Go map indexing). -/
def lookupA {β : Type} : List (String × β) → String → Option β
  | [], _ => none
  | (k, v) :: rest, key => if k = key then some v else lookupA rest key

/-- Insert or replace a key (model of Go map assignment). -/
def insertA {β : Type} (l : List (String × β)) (k : String) (v : β) : List (String × β) :=
  if (lookupA l k).isSome then
    l.map (fun pr => if pr.1 = k then (k, v) else pr)
  else
    l ++ [(k, v)]

/-- Delete a key (model of Go `delete`). -/
def eraseA {β : Type} (l : List (String × β)) (k : String) : List (String × β) :=
  l.filter (fun pr => pr.1 ≠ k)

/-! ### String helpers

Go's `strings` functions are re-implemented over `String.data` so that every
concrete evaluation reduces inside the kernel. -/

/-- Whitespace test used by the trim helper (Go `unicode.IsSpace`, restricted
to the ASCII whitespace that actually occurs in ref files). -/
def isWS (c : Char) : Bool :=
  c = ' ' || c = '\t' || c = '\n' || c = '\r'

/-- Model of Go `strings.TrimSpace`. -/
def trimStr (s : String) : String :=
  ⟨((s.data.dropWhile isWS).reverse.dropWhile isWS).reverse⟩

/-- Model of Go `strings.HasPrefix`. -/
def strStartsWith (s pre : String) : Bool :=
  pre.data.isPrefixOf s.data

/-- Drop the first `n` characters of a string. -/
def dropStr (s : String) (n : Nat) : String :=
  ⟨s.data.drop n⟩

/-- Split a character list at every occurrence of `c` (auxiliary). -/
def splitOnCharAux (c : Char) : List Char → List Char → List (List Char)
  | [], acc => [acc.reverse]
  | x :: xs, acc =>
    if x = c then acc.reverse :: splitOnCharAux c xs []
    else splitOnCharAux c xs (x :: acc)

/-- Split a character list at every occurrence of `c`. -/
def splitOnChar (c : Char) (l : List Char) : List (List Char) :=
  splitOnCharAux c l []

/-- Model of Go `strings.Fields` (the todo lines of this engine separate
fields with single spaces). -/
def fieldsOf (s : String) : List String :=
  ((splitOnChar ' ' s.data).filter (fun l => !l.isEmpty)).map (fun l => String.mk l)

/-! ### Storage layer (package `internal/storage`, not shipped with src) -/

/-- Modelled from the spec: `storage.FindCommit` searches the append-only
commit log and fails with UnknownCommit when there is no match (spec,
section 4.3; the model resolves exact ids, short-prefix resolution is not
needed by any claim because resolvability always appears as a hypothesis). -/
def findCommit (st : RepoState) (h : String) : Option Commit :=
  st.commits.find? (fun c => c.id = h)

/-- Modelled from the spec: `storage.ParseTree` deserializes a stored tree
object into a path-to-blob mapping, failing with CorruptObject when the
digest has no stored tree (spec, section 4.2). -/
def parseTree (st : RepoState) (h : String) : Option (List (String × String)) :=
  lookupA st.trees h

/-- Content digest of a blob.  The spec (section 9) only requires a
deterministic, collision-free digest; the model tags the content itself. -/
def blobDigest (content : String) : String :=
  "blob:" ++ content

/-- Insert a pair into a list sorted by key (auxiliary for tree
serialization). -/
def insertSorted (p : String × String) : List (String × String) → List (String × String)
  | [] => [p]
  | q :: rest => if p.1 ≤ q.1 then p :: q :: rest else q :: insertSorted p rest

/-- Sort a mapping by path, as the spec requires for deterministic tree
serialization (spec, section 9). -/
def sortTree (l : List (String × String)) : List (String × String) :=
  l.foldr insertSorted []

/-- Digest of a serialized tree. -/
def treeDigest (l : List (String × String)) : String :=
  "tree:" ++ String.intercalate ";" ((sortTree l).map (fun pr => pr.1 ++ "=" ++ pr.2))

/-- Modelled from the spec: `storage.CreateTree` serializes the current
index into a tree object, stores it, and returns its digest (spec,
section 4.2). -/
def createTree (st : RepoState) : RepoState × String :=
  let h := treeDigest st.index
  ({ st with trees := insertA st.trees h (sortTree st.index) }, h)

/-- Deterministic commit digest (`hashCommit` in the Go core; the model
omits the timestamp field, see `Commit`). -/
def hashCommit (c : Commit) : String :=
  "commit:" ++ c.parent ++ "|" ++ c.treeHash ++ "|" ++ c.message ++ "|" ++
    c.authorName ++ "|" ++ c.authorEmail

/-! ### Repository context and HEAD resolution (package `internal/core`,
helpers not shipped with src) -/

/-- Checks that a repository context exists (source name: the repo-marker
check in `internal/core`; an abstract boolean in the model). -/
def IsRepoInit (st : RepoState) : Bool :=
  st.inited

/-- The external dirty-work-tree oracle (spec, section 6). -/
def IsWorkDirDirty (st : RepoState) : Bool :=
  st.dirty

/-- The external path-safety oracle (spec, section 6): reject paths outside
the repository root. -/
def isSafePath (p : String) : Bool :=
  !(strStartsWith p "/") && !(strStartsWith p "..")

/-- Record a write of the HEAD file: new content, appended to the log of
HEAD writes. -/
def writeHead (st : RepoState) (h : String) : RepoState :=
  { st with head := h, headLog := st.headLog ++ [h] }

/-- Modelled from the spec: resolve HEAD to a commit digest - HEAD is
either a symbolic pointer `"ref: refs/heads/<name>"` into `branches`, or a
literal (detached) digest (spec, sections 3 and 4.3).  Yields `""` when the
branch file is empty (no commits yet). -/
def resolveHead (st : RepoState) : String :=
  if strStartsWith st.head "ref: refs/heads/" then
    trimStr ((lookupA st.branches (dropStr st.head 16)).getD "")
  else
    trimStr st.head

/-- Modelled from the spec: `readHead` returns the commit digest HEAD
points at, failing when there is none. -/
def readHead (st : RepoState) : Except KErr String :=
  let h := resolveHead st
  if h = "" then .error .noCommits else .ok h

/-- Modelled from the spec: `GetHeadState` returns the current branch name,
falling back to a detached-HEAD marker (a string starting with "HEAD") when
HEAD is not a symbolic ref (spec, section 4.3). -/
def getHeadState (st : RepoState) : Except KErr String :=
  if strStartsWith st.head "ref: refs/heads/" then .ok (dropStr st.head 16)
  else .ok "HEAD"

/-- Modelled from the spec: `GetHeadCommit` resolves HEAD and looks the
commit up in the graph; it reports `ErrNoCommits` for an empty repository
and a not-found error for a dangling digest. -/
def getHeadCommit (st : RepoState) : Except KErr Commit :=
  let h := resolveHead st
  if h = "" then .error .noCommits
  else
    match findCommit st h with
    | none => .error (.unknownCommit h)
    | some c => .ok c

/-! ### Workspace synchronizer (spec, section 4.4; not shipped with src) -/

/-- Write every blob of a tree mapping into the workspace, failing with
ObjectNotFound when a blob is missing from the object store. -/
def writeTreeFiles (objs : List (String × String)) :
    List (String × String) → List (String × String) → Except KErr (List (String × String))
  | ws, [] => .ok ws
  | ws, (p, hsh) :: rest =>
    match lookupA objs hsh with
    | none => .error (.objectNotFound hsh)
    | some content => writeTreeFiles objs (insertA ws p content) rest

/-- Modelled from the spec: `UpdateWorkspaceAndIndex` (the Workspace
Synchronizer, spec section 4.4): resolve the target commit, parse its tree
`T`, delete workspace paths tracked by the previous index but absent from
`T`, write every blob of `T` to the workspace, and replace the index
wholesale with `T`. -/
def UpdateWorkspaceAndIndex (st : RepoState) (commitHash : String) : Except KErr RepoState :=
  match findCommit st commitHash with
  | none => .error (.unknownCommit commitHash)
  | some c =>
    match parseTree st c.treeHash with
    | none => .error (.corruptObject c.treeHash)
    | some t =>
      let ws0 := st.workspace.filter
        (fun pr => !((lookupA st.index pr.1).isSome && !(lookupA t pr.1).isSome))
      match writeTreeFiles st.objects ws0 t with
      | .error e => .error e
      | .ok ws1 => .ok { st with workspace := ws1, index := t }

/-! ### Reset state machine (`internal/core/reset.go`) -/

def ResetHard : String := "hard"
def ResetSoft : String := "soft"
def ResetMixed : String := "mixed"

/-- From `reset.go`: `resetIndex` finds the target commit, parses its tree
and replaces the index with the tree mapping. -/
def resetIndex (st : RepoState) (commitHash : String) : Except KErr RepoState :=
  match findCommit st commitHash with
  | none => .error (.unknownCommit commitHash)
  | some c =>
    match parseTree st c.treeHash with
    | none => .error (.corruptObject c.treeHash)
    | some tree => .ok { st with index := tree }

/-- From `reset.go`: `resetWorkspace` delegates to the workspace
synchronizer. -/
def resetWorkspace (st : RepoState) (commitHash : String) : Except KErr RepoState :=
  UpdateWorkspaceAndIndex st commitHash

/-- From `reset.go`: `Reset` validates the commit, snapshots the trimmed
HEAD content, moves HEAD to the target unconditionally, then runs the
mode-specific steps, restoring the snapshot on failure (and for an unknown
mode). -/
def Reset (st : RepoState) (commitHash mode : String) : RepoState × Except KErr Unit :=
  if !IsRepoInit st then (st, .error .notARepo)
  else
    match findCommit st commitHash with
    | none => (st, .error (.unknownCommit commitHash))
    | some _commit =>
      let oldHead := trimStr st.head
      let st1 := writeHead st commitHash
      if mode = ResetSoft then (st1, .ok ())
      else if mode = ResetMixed then
        match resetIndex st1 commitHash with
        | .error e => (writeHead st1 oldHead, .error e)
        | .ok st2 => (st2, .ok ())
      else if mode = ResetHard then
        match resetIndex st1 commitHash with
        | .error e => (writeHead st1 oldHead, .error e)
        | .ok st2 =>
          match resetWorkspace st2 commitHash with
          | .error e => (writeHead st2 oldHead, .error e)
          | .ok st3 => (st3, .ok ())
      else (writeHead st1 oldHead, .error (.unknownResetMode mode))

/-! ### File staging and removal (`cmd/main.go` core part, plus the
spec-modelled `AddFile`) -/

/-- Remove a set of paths from disk and from the index.  Disk removal is
best-effort: a path with no workspace entry is simply skipped, mirroring
Go's tolerated `os.IsNotExist` case. -/
def removeAll (st : RepoState) (paths : List String) : RepoState :=
  { st with
    workspace := st.workspace.filter (fun pr => !(paths.contains pr.1)),
    index := st.index.filter (fun pr => !(paths.contains pr.1)) }

/-- From `main.go` (core part): `RemoveFile` rejects unsafe paths, then
inside a scoped index update (spec, section 4.2) collects the tracked files
to remove - in single-file mode failing with a pathspec error when the path
is not tracked in the index - removes them from disk (missing files
tolerated) and drops them from the index.  `filepath.Clean` is modelled as
the identity, since the model's paths are already clean relative names. -/
def RemoveFile (st : RepoState) (filename : String) (recursive : Bool) :
    RepoState × Except KErr Unit :=
  if !isSafePath filename then (st, .error (.unsafePath filename))
  else if recursive then
    let filesToRemove := (st.index.map (fun pr => pr.1)).filter
      (fun t => t = filename || strStartsWith t (filename ++ "/"))
    if filesToRemove.isEmpty then (st, .error (.pathspec filename))
    else (removeAll st filesToRemove, .ok ())
  else
    match lookupA st.index filename with
    | none => (st, .error (.pathspec filename))
    | some _ => (removeAll st [filename], .ok ())

/-- Modelled from the spec: `AddFile` hashes the file content into the
object store and stages the path in the index ("write the new blob's
content to disk and stage it in the Index", spec section 4.7). -/
def AddFile (st : RepoState) (path : String) : RepoState × Except KErr Unit :=
  match lookupA st.workspace path with
  | none => (st, .error (.other ("file not found: " ++ path)))
  | some content =>
    ({ st with
       objects := insertA st.objects (blobDigest content) content,
       index := insertA st.index path (blobDigest content) }, .ok ())

/-! ### Cherry-pick change application (`stash.go`) -/

/-- One diff entry of `getChanges`: the blob digests before and after
(either may be empty, meaning absent). -/
structure Change where
  oldHash : String
  newHash : String
  deriving DecidableEq

/-- From `stash.go`: `getChanges` diffs the parent tree against the child
tree - entries added or modified in the child, plus entries of the parent
missing from the child (deletions).  An absent or unresolvable parent is
treated as the empty tree.  Go builds a map; the model builds a list. -/
def getChanges (st : RepoState) (parentHash childHash : String) :
    Except KErr (List (String × Change)) :=
  let parentTree :=
    if parentHash ≠ "" then
      match findCommit st parentHash with
      | some pC => (parseTree st pC.treeHash).getD []
      | none => []
    else []
  match findCommit st childHash with
  | none => .error (.unknownCommit childHash)
  | some childCommit =>
    match parseTree st childCommit.treeHash with
    | none => .error (.corruptObject childCommit.treeHash)
    | some childTree =>
      let adds := childTree.filterMap (fun pr =>
        match lookupA parentTree pr.1 with
        | some pHash => if pHash ≠ pr.2 then some (pr.1, Change.mk pHash pr.2) else none
        | none => some (pr.1, Change.mk "" pr.2))
      let dels := parentTree.filterMap (fun pr =>
        if (lookupA childTree pr.1).isSome then none
        else some (pr.1, Change.mk pr.2 ""))
      .ok (adds ++ dels)

/-- Head tree as computed at the top of `applyChanges`: Go discards the
errors of `GetHeadCommit` and `ParseTree` there, which yields the empty
mapping when either fails. -/
def headTreeOf (st : RepoState) : List (String × String) :=
  match getHeadCommit st with
  | .error _ => []
  | .ok c => (parseTree st c.treeHash).getD []

/-- From `stash.go`: the body of `applyChanges` for a single change.
A deletion (`newHash = ""`) conflicts when HEAD still tracks the path with
a different digest than the parent had, and otherwise goes through
`RemoveFile`; an add/modify reads the new blob, conflicts when HEAD's
digest differs from the parent's (or the path existed in the parent but is
gone from HEAD), and otherwise writes the file and stages it. -/
def applyOneChange (st : RepoState) (headTree : List (String × String))
    (path : String) (change : Change) : RepoState × Except KErr Unit :=
  if change.newHash = "" then
    match lookupA headTree path with
    | some headFileHash =>
      if headFileHash ≠ change.oldHash then (st, .error (.conflictDeleted path))
      else RemoveFile st path false
    | none => RemoveFile st path false
  else
    match lookupA st.objects change.newHash with
    | none => (st, .error (.objectNotFound change.newHash))
    | some content =>
      match lookupA headTree path with
      | some headFileHash =>
        if headFileHash ≠ change.oldHash then (st, .error (.conflictModified path))
        else AddFile { st with workspace := insertA st.workspace path content } path
      | none =>
        if change.oldHash ≠ "" then (st, .error (.conflictModifiedDeleted path))
        else AddFile { st with workspace := insertA st.workspace path content } path

/-- Loop of `applyChanges`: apply each change in turn, stopping at the
first error. -/
def applyChangesGo (headTree : List (String × String)) :
    RepoState → List (String × Change) → RepoState × Except KErr Unit
  | st, [] => (st, .ok ())
  | st, (path, change) :: rest =>
    match applyOneChange st headTree path change with
    | (st', .error e) => (st', .error e)
    | (st', .ok _) => applyChangesGo headTree st' rest

/-- From `stash.go`: `applyChanges` applies a set of diff changes to the
working directory and index against the current HEAD's tree, failing on the
first conflict.  Go iterates a map in unspecified order; the model takes
the changes as a list. -/
def applyChanges (st : RepoState) (changes : List (String × Change)) :
    RepoState × Except KErr Unit :=
  applyChangesGo (headTreeOf st) st changes

/-! ### Stash manager (`stash.go`) -/

/-- Modelled from the spec: `storage.PopStash` removes the newest entry
(index 0) from the persisted stash stack and returns it, failing with
`ErrNoStash` when the stack is empty (spec, section 3: "push prepends,
pop/drop removes by index while preserving relative order"). -/
def popStash (st : RepoState) : RepoState × Except KErr String :=
  match st.stash with
  | [] => (st, .error .noStashEntries)
  | top :: rest => ({ st with stash := rest }, .ok top)

/-- From `stash.go`: `StashPop` pops the newest stash entry off the stack,
verifies the stash commit exists, refuses to continue on a dirty working
tree, and otherwise runs the workspace synchronizer against the popped
commit. -/
def StashPop (st : RepoState) : RepoState × Except KErr Unit :=
  if !IsRepoInit st then (st, .error .notARepo)
  else
    match popStash st with
    | (st1, .error err) => (st1, .error err)
    | (st1, .ok stashHash) =>
      match findCommit st1 stashHash with
      | none => (st1, .error (.unknownCommit stashHash))
      | some _stashCommit =>
        if IsWorkDirDirty st1 then (st1, .error .dirtyWorkTree)
        else
          match UpdateWorkspaceAndIndex st1 stashHash with
          | .error e => (st1, .error e)
          | .ok st2 => (st2, .ok ())

/-- Step 5 of `StashPush`: re-hash every tracked file that still exists on
disk, keeping the stale digest for files that are gone
(Go: `HashAndStoreFile` on each index entry whose path passes `os.Stat`). -/
def stashRehash (ws : List (String × String)) :
    List (String × String) → List (String × String)
  | [] => []
  | (p, h) :: rest =>
    match lookupA ws p with
    | some content => (p, blobDigest content) :: stashRehash ws rest
    | none => (p, h) :: stashRehash ws rest

/-- The blob-store writes performed by `HashAndStoreFile` during step 5 of
`StashPush`. -/
def stashStoreObjects (ws : List (String × String)) (idx : List (String × String))
    (objs : List (String × String)) : List (String × String) :=
  idx.foldl (fun acc pr =>
    match lookupA ws pr.1 with
    | some content => insertA acc (blobDigest content) content
    | none => acc) objs

/-- From `stash.go`: `StashPush` fails when no commit resolves from HEAD
(reported as "cannot stash: no commits yet" - Go also string-matches
"not found" errors into the same report) or when the working tree is clean;
otherwise it re-hashes tracked files, builds a tree, creates the WIP
commit, appends it to the graph, prepends it to the stash stack, and hard
resets to the original HEAD. -/
def StashPush (st : RepoState) (message : String) : RepoState × Except KErr Unit :=
  if !IsRepoInit st then (st, .error .notARepo)
  else
    match getHeadCommit st with
    | .error .noCommits => (st, .error (.other "cannot stash: no commits yet"))
    | .error (.unknownCommit _) => (st, .error (.other "cannot stash: no commits yet"))
    | .error e => (st, .error e)
    | .ok headCommit =>
      if !IsWorkDirDirty st then (st, .error .nothingToStash)
      else
        let branchName :=
          match getHeadState st with
          | .ok b => b
          | .error _ => "detached HEAD"
        let st1 : RepoState :=
          { st with
            index := stashRehash st.workspace st.index,
            objects := stashStoreObjects st.workspace st.index st.objects }
        let st2 := (createTree st1).1
        let treeHash := (createTree st1).2
        let authorName :=
          match lookupA st.config "user.name" with
          | some v => if v = "" then "Unknown" else v
          | none => "Unknown"
        let authorEmail :=
          match lookupA st.config "user.email" with
          | some v => if v = "" then "unknown@example.com" else v
          | none => "unknown@example.com"
        let wipMessage :=
          if message ≠ "" then "WIP on " ++ branchName ++ ": " ++ message
          else "WIP on " ++ branchName ++ ": " ++ headCommit.message
        let stashCommit0 : Commit :=
          { id := "", parent := headCommit.id, treeHash := treeHash,
            message := wipMessage, authorName := authorName,
            authorEmail := authorEmail }
        let stashCommit := { stashCommit0 with id := hashCommit stashCommit0 }
        let st3 := { st2 with commits := st2.commits ++ [stashCommit] }
        let st4 := { st3 with stash := stashCommit.id :: st3.stash }
        match Reset st4 headCommit.id ResetHard with
        | (st5, .error e) => (st5, .error e)
        | (st5, .ok _) => (st5, .ok ())

/-! ### Rebase engine (`stash.go`) -/

/-- From `stash.go`: `generateTodo` renders one `pick` line per commit
(resolution failures leave an empty message, as Go ignores the error) plus
a comment block describing the commands. -/
def generateTodo (st : RepoState) (hashes : List String) : String :=
  (hashes.foldl (fun acc hsh =>
    let msg :=
      match findCommit st hsh with
      | some c => c.message
      | none => ""
    acc ++ "pick " ++ hsh ++ " " ++ msg ++ "\n") "")
    ++ "\n" ++ "# Commands:\n" ++ "# p, pick <commit> = use commit\n"
    ++ "# r, reword <commit> = use commit, but edit the commit message\n"
    ++ "# s, squash <commit> = use commit, but meld into previous commit\n"
    ++ "# d, drop <commit> = remove commit\n"

/-- From `stash.go`: `parseTodo` keeps the trimmed lines that are neither
empty nor comments. -/
def parseTodo (content : String) : List String :=
  ((splitOnChar '\n' content.data).map (fun l => trimStr (String.mk l))).filter
    (fun s => !(s == "") && !(strStartsWith s "#"))

/-- From `stash.go`: the walking loop of `getCommitsBetween`, made total
with an explicit fuel parameter (the Go loop terminates on every acyclic
commit graph; every theorem below supplies fuel exceeding the chain length,
where the model is exact).  Walking from `curr` backwards: an empty id or
reaching `start` stops with the collected chain, a root commit is kept and
stops the walk, and an unresolvable commit is an error. -/
def walkBack (st : RepoState) (start : String) : Nat → String → Except KErr (List String)
  | 0, _ => .error (.other "walk fuel exhausted")
  | fuel + 1, curr =>
    if curr = "" then .ok []
    else if curr = start then .ok []
    else
      match findCommit st curr with
      | none => .error (.unknownCommit curr)
      | some c =>
        if c.parent = "" then .ok [curr]
        else
          match walkBack st start fuel c.parent with
          | .error e => .error e
          | .ok rest => .ok (curr :: rest)

/-- From `stash.go`: `getCommitsBetween` walks parent pointers backward
from `e` and reverses the collected chain to oldest-first order
("start (exclusive) to end (inclusive)"). -/
def getCommitsBetween (st : RepoState) (fuel : Nat) (start e : String) :
    Except KErr (List String) :=
  match walkBack st start fuel e with
  | .error er => .error er
  | .ok chain => .ok chain.reverse

/-- Parent-link check used by `descChain` (auxiliary). -/
def parentLinkOk (plink : String) (c : Commit) : List Commit → Bool
  | [] => c.parent = plink
  | c' :: _ => c.parent = c'.id

/-- A newest-first chain of commits: each resolves to itself in the store,
each one's parent is the next entry, and the last one's parent is `plink`. -/
def descChain (st : RepoState) (plink : String) : List Commit → Bool
  | [] => true
  | c :: rest =>
    decide (findCommit st c.id = some c) && parentLinkOk plink c rest &&
      descChain st plink rest

/-- Modelled from the spec: the presence of the persisted `RebaseState` is
the sole rebase-in-progress signal (spec, section 3). -/
def IsRebaseInProgress (st : RepoState) : Bool :=
  st.rebase.isSome

/-- Modelled from the spec: `SaveRebaseState` persists the record. -/
def SaveRebaseState (st : RepoState) (rs : RebaseState) : RepoState :=
  { st with rebase := some rs }

/-- Modelled from the spec: `ClearRebaseState` deletes the record. -/
def ClearRebaseState (st : RepoState) : RepoState :=
  { st with rebase := none }

/-- Modelled from the spec: `AdvanceRebaseStep` increments the current step
index and persists the record ("on success, advance the step index and
persist", spec section 4.7). -/
def AdvanceRebaseStep (st : RepoState) (rs : RebaseState) : RepoState :=
  { st with rebase := some { rs with currentStep := rs.currentStep + 1 } }

/-- From `stash.go`: `finishRebase` re-points the rebased branch (when a
named branch was being rebased) at the final commit and switches HEAD back
to it, deletes the scratch branch and clears the rebase state.  The branch
ref file `.kitcat/refs/heads/<name>` is the `branches` entry under
`<name>`, hence the drop of the `"refs/heads/"` prefix. -/
def finishRebase (st : RepoState) (rs : RebaseState) : RepoState × Except KErr Unit :=
  match readHead st with
  | .error e => (st, .error e)
  | .ok headHash =>
    let st1 :=
      if rs.headName ≠ "" then
        let sta := writeHead st ("ref: " ++ rs.headName)
        { sta with branches := insertA sta.branches (dropStr rs.headName 11) headHash }
      else st
    let st2 := { st1 with branches := eraseA st1.branches "kitcat-rebase-tmp" }
    (ClearRebaseState st2, .ok ())

/-- Dispatch of one todo action in `RunRebaseLoop`.  The pick, reword and
squash executors (cherry-pick plus editor interaction) are function
parameters; `drop` is a no-op, and an unrecognized action is skipped with a
warning, leaving no error. -/
def execRebaseAction
    (doPick doReword doSquash : String → RepoState → RepoState × Except KErr Unit)
    (action hash : String) (st : RepoState) : RepoState × Except KErr Unit :=
  if action = "pick" ∨ action = "p" then doPick hash st
  else if action = "reword" ∨ action = "r" then doReword hash st
  else if action = "squash" ∨ action = "s" then doSquash hash st
  else if action = "drop" ∨ action = "d" then (st, .ok ())
  else (st, .ok ())

/-- From `stash.go`: `RunRebaseLoop` - reads the persisted state each
iteration, finishes the rebase when all steps are consumed, skips lines
with fewer than two fields, executes the current step, stops in place on a
step error (returning nil and leaving the persisted state unadvanced), and
advances then loops on success.  A fuel parameter makes the loop total;
`steps + 1` iterations always suffice since every continuing iteration
advances the step index. -/
def runRebaseLoop
    (doPick doReword doSquash : String → RepoState → RepoState × Except KErr Unit) :
    Nat → RepoState → RepoState × Except KErr Unit
  | 0, st => (st, .error (.other "loop fuel exhausted"))
  | fuel + 1, st =>
    match st.rebase with
    | none => (st, .error (.other "no rebase in progress"))
    | some rs =>
      if rs.todoSteps.length ≤ rs.currentStep then finishRebase st rs
      else
        let cmdLine := rs.todoSteps.getD rs.currentStep ""
        let parts := fieldsOf cmdLine
        if parts.length < 2 then
          runRebaseLoop doPick doReword doSquash fuel (AdvanceRebaseStep st rs)
        else
          match execRebaseAction doPick doReword doSquash
              (parts.getD 0 "") (parts.getD 1 "") st with
          | (st', .error _) => (st', .ok ())
          | (st', .ok _) =>
            runRebaseLoop doPick doReword doSquash fuel (AdvanceRebaseStep st' rs)

/-- From `stash.go`: `RebaseInteractive` - refuses on a dirty tree,
resolves the base commit, computes the commits to rebase and succeeds
trivially with no state change when there are none; otherwise generates the
todo list, hands it to the external editor (`edit`), parses the result,
persists the rebase state, points HEAD at a scratch branch rooted at the
base, synchronizes the workspace to the base and runs the loop.  The editor
and the step executors are function parameters (external interfaces; spec,
section 6). -/
def RebaseInteractive
    (doPick doReword doSquash : String → RepoState → RepoState × Except KErr Unit)
    (st : RepoState) (commitHash : String) (edit : String → String) :
    RepoState × Except KErr Unit :=
  if !IsRepoInit st then (st, .error .notARepo)
  else if IsWorkDirDirty st then (st, .error .dirtyWorkTree)
  else
    match findCommit st commitHash with
    | none => (st, .error (.unknownCommit commitHash))
    | some ontoCommit =>
      match getHeadState st with
      | .error e => (st, .error e)
      | .ok headState =>
        match readHead st with
        | .error e => (st, .error e)
        | .ok headHash =>
          let rebaseHeadNameVal :=
            if !strStartsWith headState "HEAD" then "refs/heads/" ++ headState else ""
          match getCommitsBetween st (st.commits.length + 1) ontoCommit.id headHash with
          | .error e => (st, .error e)
          | .ok commitsToRebase =>
            if commitsToRebase.isEmpty then (st, .ok ())
            else
              let steps := parseTodo (edit (generateTodo st commitsToRebase))
              if steps.isEmpty then (st, .ok ())
              else
                let rs : RebaseState :=
                  { headName := rebaseHeadNameVal, onto := ontoCommit.id,
                    origHead := headHash, todoSteps := steps, currentStep := 0 }
                let st1 := SaveRebaseState st rs
                let st2 := { st1 with
                             branches := insertA st1.branches "kitcat-rebase-tmp" ontoCommit.id }
                let st3 := writeHead st2 "ref: refs/heads/kitcat-rebase-tmp"
                match UpdateWorkspaceAndIndex st3 ontoCommit.id with
                | .error e => (st3, .error e)
                | .ok st4 =>
                  runRebaseLoop doPick doReword doSquash (rs.todoSteps.length + 1) st4

/-! ### Concrete repositories used by witnesses -/

/-- A fresh, initialized, otherwise empty repository. -/
def emptyRepo : RepoState :=
  { inited := true, head := "", headLog := [], branches := [], index := [],
    workspace := [], objects := [], trees := [], commits := [], stash := [],
    config := [], dirty := false, rebase := none }

/-- Commit with a tree that is missing from the tree store (so that
mixed/hard reset fails after the HEAD move). -/
def w2c : Commit :=
  { id := "c1", parent := "", treeHash := "t1", message := "m",
    authorName := "a", authorEmail := "a@x" }

def w2st : RepoState :=
  { emptyRepo with
    head := "c0", commits := [w2c],
    index := [("f.txt", "h0")], workspace := [("f.txt", "x")] }

/-- Stash commit for the dirty-pop scenario. -/
def w1c : Commit :=
  { id := "s1", parent := "c0", treeHash := "t9", message := "WIP on main: x",
    authorName := "a", authorEmail := "a@x" }

/-- Repository with one stash entry and a dirty working tree. -/
def w1st : RepoState :=
  { emptyRepo with commits := [w1c], stash := ["s1"], dirty := true }

/-- Repository with no commits yet (HEAD points at an empty branch file). -/
def w7a : RepoState :=
  { emptyRepo with
    head := "ref: refs/heads/main", branches := [("main", "")], dirty := true }

def w7c1 : Commit :=
  { id := "c1", parent := "", treeHash := "t1", message := "first",
    authorName := "a", authorEmail := "a@x" }

/-- Repository with one commit and a clean working tree. -/
def w7b : RepoState :=
  { emptyRepo with head := "c1", commits := [w7c1], dirty := false }

/-- Repository whose HEAD tree has no entry for `a.txt`, whose index does
not track it, and whose workspace still holds it: the counterexample state
for the untracked-deletion claim. -/
def ce3st : RepoState :=
  { emptyRepo with workspace := [("a.txt", "x")] }

/-- Repository tracking `a.txt` in the index (with the file on disk), HEAD
unresolvable so the HEAD tree is empty. -/
def w3st : RepoState :=
  { emptyRepo with index := [("a.txt", "d1")], workspace := [("a.txt", "x")] }

def w5c0 : Commit :=
  { id := "c0", parent := "", treeHash := "t0", message := "base",
    authorName := "a", authorEmail := "a@x" }

def w5c1 : Commit :=
  { id := "c1", parent := "c0", treeHash := "t1", message := "one",
    authorName := "a", authorEmail := "a@x" }

/-- Two-commit linear history: `c0 <- c1`. -/
def w5st : RepoState :=
  { emptyRepo with commits := [w5c0, w5c1] }

def w10b : Commit :=
  { id := "b0", parent := "", treeHash := "tb", message := "unrelated",
    authorName := "a", authorEmail := "a@x" }

def w10r : Commit :=
  { id := "r0", parent := "", treeHash := "tr", message := "root",
    authorName := "a", authorEmail := "a@x" }

def w10h : Commit :=
  { id := "h1", parent := "r0", treeHash := "th", message := "tip",
    authorName := "a", authorEmail := "a@x" }

/-- History `r0 <- h1` plus an unrelated commit `b0` that is not an
ancestor of `h1`. -/
def w10st : RepoState :=
  { emptyRepo with commits := [w10b, w10r, w10h] }

/-- A step executor that always reports a conflict. -/
def w6pick : String → RepoState → RepoState × Except KErr Unit :=
  fun _ st => (st, .error (.conflictModified "a.txt"))

def w6rs : RebaseState :=
  { headName := "", onto := "b0", origHead := "h0",
    todoSteps := ["pick c1 msg"], currentStep := 0 }

/-- Repository in the middle of a rebase whose current step is a pick. -/
def w6st : RepoState :=
  { emptyRepo with rebase := some w6rs }

def w4hc : Commit :=
  { id := "h1", parent := "", treeHash := "ht", message := "head",
    authorName := "a", authorEmail := "a@x" }

/-- Repository whose HEAD tree maps `a.txt` to digest `d3`, with the
incoming blob `d2` present in the object store. -/
def w4st : RepoState :=
  { emptyRepo with
    head := "h1", commits := [w4hc], trees := [("ht", [("a.txt", "d3")])],
    objects := [("d2", "new content")], index := [("a.txt", "d3")],
    workspace := [("a.txt", "old")] }

/-! ### Theorems -/

/-- C8: a soft reset of a resolvable commit moves only HEAD - the resulting
state is the input state with `head` set to the target (and the HEAD write
logged); in particular the on-disk index and every working-tree file are
exactly as before the call. -/
theorem reset_soft_frame (st : RepoState) (h : String) (c : Commit)
    (hinit : st.inited = true)
    (hfind : findCommit st h = some c) :
    Reset st h ResetSoft =
      ({ st with head := h, headLog := st.headLog ++ [h] }, .ok ()) := by
  simp [Reset, IsRepoInit, hinit, hfind, writeHead]

/-- Closed witness for `reset_soft_frame` at a concrete repository. -/
theorem reset_soft_frame_witness :
    Reset w2st "c1" ResetSoft =
      ({ w2st with head := "c1", headLog := w2st.headLog ++ ["c1"] }, .ok ()) :=
  reset_soft_frame w2st "c1" w2c rfl rfl

/-- C9: for a resolvable commit and a mode outside soft/mixed/hard, Reset
first writes HEAD to the target, then restores the trimmed pre-call value,
and returns a non-nil unknown-mode error; the HEAD write log exhibits the
tentative move followed by the restore. -/
theorem reset_unknown_mode (st : RepoState) (h mode : String) (c : Commit)
    (hinit : st.inited = true)
    (hfind : findCommit st h = some c)
    (hm1 : mode ≠ ResetSoft) (hm2 : mode ≠ ResetMixed) (hm3 : mode ≠ ResetHard) :
    Reset st h mode =
      ({ st with head := trimStr st.head,
                 headLog := st.headLog ++ [h, trimStr st.head] },
       .error (.unknownResetMode mode)) := by
  simp [Reset, IsRepoInit, hinit, hfind, hm1, hm2, hm3, writeHead]

/-- Closed witness for `reset_unknown_mode` at a concrete repository and
mode string. -/
theorem reset_unknown_mode_witness :
    Reset w2st "c1" "bananas" =
      ({ w2st with head := trimStr w2st.head,
                   headLog := w2st.headLog ++ ["c1", trimStr w2st.head] },
       .error (.unknownResetMode "bananas")) :=
  reset_unknown_mode w2st "c1" "bananas" w2c rfl rfl
    (by decide) (by decide) (by decide)

/-- C2: if a mixed or hard reset of a resolvable commit fails (which, once
the commit resolves, can only happen in the index replacement or the
workspace synchronization, both after the HEAD move), then on return HEAD
holds its pre-call value again, and the HEAD write log shows the tentative
move to the target followed by the restore.  The hypothesis
`trimStr st.head = st.head` states that the stored HEAD content carries no
surrounding whitespace, which is the invariant maintained by every HEAD
write in the engine. -/
theorem reset_rollback (st : RepoState) (h mode : String) (c : Commit)
    (st' : RepoState) (e : KErr)
    (hinit : st.inited = true)
    (hfind : findCommit st h = some c)
    (hmode : mode = ResetMixed ∨ mode = ResetHard)
    (htrim : trimStr st.head = st.head)
    (hres : Reset st h mode = (st', .error e)) :
    st'.head = st.head ∧ st'.headLog = st.headLog ++ [h, st.head] := by
  have frameIdx : ∀ s s2 : RepoState, resetIndex s h = .ok s2 →
      s2.head = s.head ∧ s2.headLog = s.headLog := by
    intro s s2 hok
    unfold resetIndex at hok
    split at hok
    · simp at hok
    · split at hok
      · simp at hok
      · simp only [Except.ok.injEq] at hok
        rw [← hok]
        exact ⟨rfl, rfl⟩
  rcases hmode with hm | hm
  · subst hm
    simp only [Reset, IsRepoInit, hinit, Bool.not_true, hfind,
      Bool.false_eq_true, if_false, if_true] at hres
    rw [if_neg (show ¬(ResetMixed = ResetSoft) by decide)] at hres
    split at hres
    · simp only [Prod.mk.injEq] at hres
      rw [← hres.1, htrim]
      simp [writeHead]
    · simp at hres
  · subst hm
    simp only [Reset, IsRepoInit, hinit, Bool.not_true, hfind,
      Bool.false_eq_true, if_false, if_true] at hres
    rw [if_neg (show ¬(ResetHard = ResetSoft) by decide)] at hres
    rw [if_neg (show ¬(ResetHard = ResetMixed) by decide)] at hres
    split at hres
    · simp only [Prod.mk.injEq] at hres
      rw [← hres.1, htrim]
      simp [writeHead]
    · rename_i st2 hri
      split at hres
      · simp only [Prod.mk.injEq] at hres
        obtain ⟨hh, hl⟩ := frameIdx (writeHead st h) st2 hri
        rw [← hres.1, htrim]
        simp [writeHead, hh, hl]
      · simp at hres

/-- Closed witness for `reset_rollback`: a mixed reset whose index
replacement fails because the commit's tree is absent from the store. -/
theorem reset_rollback_witness :
    (Reset w2st "c1" ResetMixed).1.head = w2st.head ∧
      (Reset w2st "c1" ResetMixed).1.headLog = w2st.headLog ++ ["c1", w2st.head] :=
  reset_rollback w2st "c1" ResetMixed w2c (Reset w2st "c1" ResetMixed).1
    (.corruptObject "t1") rfl rfl (Or.inl rfl) rfl rfl

/-- C1 evidence: with one stash entry and a dirty working tree, `StashPop`
returns a dirty-work-tree error, yet the stash stack has lost its top
entry - `storage.PopStash` runs before the dirty check, so the refused pop
removes the entry from the stack. -/
theorem stashPop_dirty_drops_entry :
    StashPop w1st = ({ w1st with stash := [] }, .error .dirtyWorkTree) ∧
      w1st.stash = ["s1"] :=
  ⟨rfl, rfl⟩

/-- C7: `StashPush` fails with "cannot stash: no commits yet" when HEAD
resolves to no commit, and fails with the nothing-to-stash error when the
working tree is clean; in both cases the returned state is the input state,
so no stash commit is created and the stash stack is unchanged. -/
theorem stashPush_guards (st : RepoState) (msg : String)
    (hinit : st.inited = true) :
    (getHeadCommit st = .error .noCommits →
      StashPush st msg = (st, .error (.other "cannot stash: no commits yet"))) ∧
    (∀ c, getHeadCommit st = .ok c → st.dirty = false →
      StashPush st msg = (st, .error .nothingToStash)) := by
  constructor
  · intro hhead
    simp only [StashPush, IsRepoInit, hinit, Bool.not_true, Bool.false_eq_true,
      if_false, hhead]
  · intro c hhead hdirty
    simp only [StashPush, IsRepoInit, hinit, Bool.not_true, Bool.false_eq_true,
      if_false, hhead, IsWorkDirDirty, hdirty, Bool.not_false, if_true]

/-- Closed witness for `stashPush_guards`: an empty repository and a
clean-tree repository. -/
theorem stashPush_guards_witness :
    StashPush w7a "" = (w7a, .error (.other "cannot stash: no commits yet")) ∧
      StashPush w7b "" = (w7b, .error .nothingToStash) :=
  ⟨(stashPush_guards w7a "" rfl).1 rfl, (stashPush_guards w7b "" rfl).2 w7c1 rfl rfl⟩

/-- C4: a change whose path carries three pairwise distinct digests in the
parent tree (`d1`), the child tree (`d2`) and the current HEAD tree (`d3`)
makes `applyChanges` fail with the modified-both conflict, returning the
input state unchanged - in particular the path's working-tree file and
index entry are untouched. -/
theorem applyChanges_modified_both (st : RepoState) (path d1 d2 d3 content : String)
    (hhead : lookupA (headTreeOf st) path = some d3)
    (h12 : d1 ≠ d2) (h13 : d1 ≠ d3) (h23 : d2 ≠ d3)
    (h2ne : d2 ≠ "")
    (hobj : lookupA st.objects d2 = some content) :
    applyChanges st [(path, Change.mk d1 d2)] = (st, .error (.conflictModified path)) := by
  have h1 : applyOneChange st (headTreeOf st) path (Change.mk d1 d2) =
      (st, .error (.conflictModified path)) := by
    simp [applyOneChange, h2ne, hobj, hhead, Ne.symm h13]
  simp [applyChanges, applyChangesGo, h1]

/-- Closed witness for `applyChanges_modified_both` with digests d1, d2, d3. -/
theorem applyChanges_modified_both_witness :
    applyChanges w4st [("a.txt", Change.mk "d1" "d2")] =
      (w4st, .error (.conflictModified "a.txt")) :=
  applyChanges_modified_both w4st "a.txt" "d1" "d2" "d3" "new content" rfl
    (by decide) (by decide) (by decide) (by decide) rfl

/-- C3 counterexample: a deletion change for a path absent from the HEAD
tree, with the file still on disk but not tracked in the index, makes
`applyChanges` abort with a pathspec error and leaves the file on disk -
the claimed tolerant delete-and-drop behavior does not happen, because
`RemoveFile` fails for paths missing from the index before touching the
disk. -/
theorem applyChanges_deletion_untracked_errors :
    applyChanges ce3st [("a.txt", Change.mk "d1" "")] =
      (ce3st, .error (.pathspec "a.txt")) ∧
      lookupA ce3st.workspace "a.txt" = some "x" :=
  ⟨rfl, rfl⟩

/-- C3 (amended): for a deletion change whose path the HEAD tree either
does not track or tracks with exactly the parent's digest, and which is
tracked in the index, `applyChanges` reports no conflict: the file is
removed from disk if present (a missing file is tolerated by `removeAll`)
and the path is dropped from the index. -/
theorem applyChanges_deletion_tracked (st : RepoState) (path old idxHash : String)
    (hsafe : isSafePath path = true)
    (hhead : lookupA (headTreeOf st) path = none ∨
      lookupA (headTreeOf st) path = some old)
    (hidx : lookupA st.index path = some idxHash) :
    applyChanges st [(path, Change.mk old "")] = (removeAll st [path], .ok ()) := by
  have hrm : RemoveFile st path false = (removeAll st [path], .ok ()) := by
    simp [RemoveFile, hsafe, hidx]
  have h1 : applyOneChange st (headTreeOf st) path (Change.mk old "") =
      (removeAll st [path], .ok ()) := by
    rcases hhead with hh | hh
    · simp [applyOneChange, hh, hrm]
    · simp [applyOneChange, hh, hrm]
  simp [applyChanges, applyChangesGo, h1]

/-- Closed witness for `applyChanges_deletion_tracked`: index-tracked path,
empty HEAD tree. -/
theorem applyChanges_deletion_tracked_witness :
    applyChanges w3st [("a.txt", Change.mk "d1" "")] =
      (removeAll w3st ["a.txt"], .ok ()) :=
  applyChanges_deletion_tracked w3st "a.txt" "d1" "d1" rfl (Or.inl rfl) rfl

/-- Helper: the walking loop follows a resolvable parent chain exactly.
`ds` is newest-first, `plink` is the parent recorded on the oldest entry;
the walk from the newest entry collects precisely the chain's ids, both
when the chain bottoms out at `start` itself and when it bottoms out at a
root commit without ever meeting `start`. -/
theorem walkBack_descChain (st : RepoState) (start plink : String)
    (hcase : plink = start ∨ (plink = "" ∧ start ≠ "")) :
    ∀ (ds : List Commit) (c : Commit) (fuel : Nat),
      descChain st plink (c :: ds) = true →
      (∀ x ∈ c :: ds, x.id ≠ "" ∧ x.id ≠ start) →
      (c :: ds).length < fuel →
      walkBack st start fuel c.id = .ok ((c :: ds).map (fun x => x.id)) := by
  intro ds
  induction ds with
  | nil =>
    intro c fuel hchain hne hfuel
    obtain ⟨hcid, hcstart⟩ := hne c (by simp)
    have hchain' : (decide (findCommit st c.id = some c) && parentLinkOk plink c [] &&
        descChain st plink []) = true := hchain
    simp only [parentLinkOk, descChain, Bool.and_true, Bool.and_eq_true,
      decide_eq_true_eq] at hchain'
    obtain ⟨hfind, hpar⟩ := hchain'
    cases fuel with
    | zero => omega
    | succ f =>
      rcases hcase with hps | ⟨hpl, hs⟩
      · rw [hps] at hpar
        by_cases hstart : start = ""
        · subst hstart
          simp [walkBack, hcid, hcstart, hfind, hpar]
        · cases f with
          | zero =>
            simp only [List.length_cons, List.length_nil] at hfuel
            omega
          | succ f2 =>
            simp [walkBack, hcid, hcstart, hfind, hpar, hstart]
      · rw [hpl] at hpar
        simp [walkBack, hcid, hcstart, hfind, hpar]
  | cons c' rest ih =>
    intro c fuel hchain hne hfuel
    obtain ⟨hcid, hcstart⟩ := hne c (by simp)
    have hc'id : c'.id ≠ "" := (hne c' (by simp)).1
    have hchain' : (decide (findCommit st c.id = some c) &&
        parentLinkOk plink c (c' :: rest) && descChain st plink (c' :: rest)) = true := hchain
    simp only [parentLinkOk, Bool.and_eq_true, decide_eq_true_eq] at hchain'
    obtain ⟨⟨hfind, hpar⟩, hrest⟩ := hchain'
    cases fuel with
    | zero => omega
    | succ f =>
      have hwb := ih c' f hrest (fun x hx => hne x (by simp [hx])) (by
        simp only [List.length_cons] at hfuel ⊢
        omega)
      simp [walkBack, hcid, hcstart, hfind, hpar, hc'id, hwb]

/-- C5: for a base commit that is an ancestor of HEAD (hypotheses: a
resolvable newest-first chain `ds` from HEAD down to, exclusively, the
base `c0`), `getCommitsBetween` returns exactly the walked chain reversed
to oldest-first order; and when that list is empty (HEAD = base), starting
an interactive rebase succeeds trivially with no state change - no
`RebaseState` is persisted and HEAD is unmoved, the returned state being
the input state. -/
theorem getCommitsBetween_ancestor_chain (st : RepoState) (fuel : Nat)
    (c0 : Commit) (ds : List Commit)
    (hbase : findCommit st c0.id = some c0)
    (hchain : descChain st c0.id ds = true)
    (hne : ∀ x ∈ ds, x.id ≠ "" ∧ x.id ≠ c0.id)
    (hc0 : c0.id ≠ "")
    (hfuel : ds.length < fuel) :
    getCommitsBetween st fuel c0.id ((ds.headD c0).id) =
      .ok (ds.reverse.map (fun x => x.id)) ∧
    (ds = [] → ∀ doPick doReword doSquash edit,
      st.inited = true → st.dirty = false → resolveHead st = c0.id →
      RebaseInteractive doPick doReword doSquash st c0.id edit = (st, .ok ())) := by
  constructor
  · cases ds with
    | nil =>
      cases fuel with
      | zero => omega
      | succ f => simp [getCommitsBetween, walkBack, hc0]
    | cons d0 drest =>
      have hwb := walkBack_descChain st c0.id c0.id (Or.inl rfl) drest d0 fuel
        hchain hne hfuel
      simp [getCommitsBetween, hwb, List.map_reverse]
  · intro hds doPick doReword doSquash edit hinit hdirty hres
    subst hds
    have hgs : ∃ b, getHeadState st = .ok b := by
      by_cases hsym : strStartsWith st.head "ref: refs/heads/"
      · exact ⟨dropStr st.head 16, by simp [getHeadState, hsym]⟩
      · exact ⟨"HEAD", by simp [getHeadState, hsym]⟩
    obtain ⟨b, hgsb⟩ := hgs
    have hrh : readHead st = .ok c0.id := by
      simp [readHead, hres, hc0]
    have hgc : getCommitsBetween st (st.commits.length + 1) c0.id c0.id = .ok [] := by
      simp [getCommitsBetween, walkBack, hc0]
    simp [RebaseInteractive, IsRepoInit, hinit, IsWorkDirDirty, hdirty, hbase,
      hgsb, hrh, hgc]

/-- Closed witness for `getCommitsBetween_ancestor_chain`: a one-commit
chain above the base. -/
theorem getCommitsBetween_ancestor_chain_witness :
    getCommitsBetween w5st 2 w5c0.id (([w5c1].headD w5c0).id) =
      .ok ([w5c1].reverse.map (fun x => x.id)) :=
  (getCommitsBetween_ancestor_chain w5st 2 w5c0 [w5c1] rfl rfl
    (by decide) (by decide) (by decide)).1

/-- C10: for a base commit that resolves but is not an ancestor of HEAD
(hypotheses: the full newest-first history from HEAD down to the root
commit, none of whose entries is the base), `getCommitsBetween` returns,
without error, the entire parent chain from HEAD back to and including the
root, reversed to oldest first - a non-empty list, so the interactive
rebase proceeds to replay the repository's whole history. -/
theorem getCommitsBetween_nonancestor_full_history (st : RepoState) (fuel : Nat)
    (base : String) (onto d0 : Commit) (drest : List Commit)
    (hbase : findCommit st base = some onto)
    (hchain : descChain st "" (d0 :: drest) = true)
    (hne : ∀ x ∈ d0 :: drest, x.id ≠ "" ∧ x.id ≠ base)
    (hbasene : base ≠ "")
    (hfuel : (d0 :: drest).length < fuel) :
    getCommitsBetween st fuel base d0.id =
      .ok ((d0 :: drest).reverse.map (fun x => x.id)) ∧
    (d0 :: drest).reverse.map (fun x => x.id) ≠ [] := by
  have hwb := walkBack_descChain st base "" (Or.inr ⟨rfl, hbasene⟩) drest d0 fuel
    hchain hne hfuel
  constructor
  · simp [getCommitsBetween, hwb, List.map_reverse]
  · simp

/-- Closed witness for `getCommitsBetween_nonancestor_full_history`: a
two-commit history walked from an unrelated base. -/
theorem getCommitsBetween_nonancestor_witness :
    getCommitsBetween w10st 3 "b0" w10h.id =
      .ok (([w10h, w10r]).reverse.map (fun x => x.id)) :=
  (getCommitsBetween_nonancestor_full_history w10st 3 "b0" w10b w10h [w10r]
    rfl rfl (by decide) (by decide) (by decide)).1

/-- C6: whenever executing the current todo step yields an error (a
cherry-pick conflict), the rebase loop returns immediately with a nil
result, without advancing the step index: the persisted `RebaseState` in
the returned repository still is the very record that points at the failed
step.  (The executor hypothesis `hkeep` states that cherry-picking does not
touch the persisted rebase state, which holds for the real executors.) -/
theorem rebase_loop_conflict_stops
    (doPick doReword doSquash : String → RepoState → RepoState × Except KErr Unit)
    (fuel : Nat) (st st' : RepoState) (rs : RebaseState)
    (action hash : String) (rest : List String) (e : KErr)
    (hrs : st.rebase = some rs)
    (hlt : rs.currentStep < rs.todoSteps.length)
    (hparts : fieldsOf (rs.todoSteps.getD rs.currentStep "") = action :: hash :: rest)
    (hexec : execRebaseAction doPick doReword doSquash action hash st = (st', .error e))
    (hkeep : st'.rebase = st.rebase) :
    runRebaseLoop doPick doReword doSquash (fuel + 1) st = (st', .ok ()) ∧
      st'.rebase = some rs := by
  constructor
  · have hlen2 : ¬((action :: hash :: rest).length < 2) := by
      simp only [List.length_cons]
      omega
    simp only [runRebaseLoop, hrs]
    rw [if_neg (Nat.not_le.mpr hlt)]
    simp only [hparts]
    rw [if_neg hlen2]
    simp only [List.getD_cons_zero, List.getD_cons_succ]
    rw [hexec]
  · rw [hkeep, hrs]

/-- Closed witness for `rebase_loop_conflict_stops`: a one-step rebase
whose pick executor conflicts. -/
theorem rebase_loop_conflict_stops_witness :
    runRebaseLoop w6pick w6pick w6pick 2 w6st = (w6st, .ok ()) ∧
      w6st.rebase = some w6rs :=
  rebase_loop_conflict_stops w6pick w6pick w6pick 1 w6st w6st w6rs "pick" "c1"
    ["msg"] (.conflictModified "a.txt") rfl (by decide) rfl rfl rfl
